import Mathlib

/-!
Shallow embedding of the libtgvoip `MessageThread` timer scheduler
(`src/3rdparty/libtgvoip/MessageThread.cpp`) and proofs about its
queue invariant, submission, cancellation, delivery and shutdown logic.

Modelling choices:
* C++ `double` timestamps are modelled as `ℚ` (exact arithmetic; the
  scheduling algorithm only compares and adds times).
* The mutex / condition-variable machinery is not part of the functional
  model; operations act on a single explicit scheduler state.
* `VoIPController::GetCurrentTime()` is modelled as reading successive
  values of an arbitrary clock stream `clock : Nat → ℚ` at an explicit
  read index, so each fresh time read in the source corresponds to one
  read of the stream.
* Callbacks (`std::function<void()> func`, which in the source may call
  back into the scheduler) are modelled by the small deep-embedded
  language `FuncBody`, interpreted against the scheduler state.
-/

namespace MessageThread

/-- Deep embedding of the callback bodies needed for the verified
scenarios: a no-op callback, a callback invoking `CancelSelf()`, a
callback invoking `Cancel(id)`, and a callback that increments a shared
captured counter and calls `CancelSelf()` when the counter reaches `n`
(the "self-cancel on the n-th invocation" closure from the spec). -/
inductive FuncBody where
  | nop : FuncBody
  | cancelSelf : FuncBody
  | cancel (id : Nat) : FuncBody
  | bumpThenCancelSelfAt (n : Nat) : FuncBody
deriving DecidableEq

/-- `MessageThread::Message`: id, absolute delivery time (`0` is the
"deliver as soon as possible" sentinel), repeat interval (`0` = one-shot),
and the callback (`none` models a null `std::function`). -/
structure Message where
  id : Nat
  deliverAt : ℚ
  interval : ℚ
  func : Option FuncBody
deriving DecidableEq

/-- The scheduler state: the pending queue, the id counter, the `running`
flag, the atomic `hardStopped` flag and the per-cycle `cancelCurrent`
flag, exactly the `MessageThread` members used by `MessageThread.cpp`.
`lastMessageID` is a `uint32_t` in the source: it is carried as a `Nat`
and the post-increment in `Post` wraps it modulo `2 ^ 32`, so every
counter value the model produces stays below `2 ^ 32`.
`envCounter` is not a `MessageThread` member: it models the mutable
counter captured by the user closure in the `bumpThenCancelSelfAt`
callback (user-side state the callback mutates). -/
structure MTState where
  queue : List Message
  lastMessageID : Nat
  running : Bool
  hardStopped : Bool
  cancelCurrent : Bool
  envCounter : Nat
deriving DecidableEq

/-- Modelled from the spec: the state of a freshly created scheduler whose
worker thread has been started by the owner (`running` becomes true at
start; queue empty; flags clear).  `MessageThread.h` with the member
initialisers is not under `src/`; only the field set is visible from
`MessageThread.cpp`. -/
def initState : MTState :=
  { queue := [], lastMessageID := 0, running := true, hardStopped := false,
    cancelCurrent := false, envCounter := 0 }

/-- The scan loop of `MessageThread::InsertMessageInternal` (lines
162-169): starting from `insertAfter = begin`, insert `m` right after the
current position as soon as the next position is `end` or the next
element's `deliverAt` strictly exceeds `m.deliverAt` while the current
element's does not. -/
def insertLoop (m : Message) : List Message → List Message
  | [] => [m]
  | [a] => [a, m]
  | a :: b :: rest =>
    if m.deliverAt < b.deliverAt ∧ a.deliverAt ≤ m.deliverAt then
      a :: m :: b :: rest
    else
      a :: insertLoop m (b :: rest)

/-- `MessageThread::InsertMessageInternal` (lines 155-172): empty queue
gets `[m]`; if the front element's `deliverAt` strictly exceeds
`m.deliverAt`, insert at the front; otherwise run the scan loop. -/
def InsertMessageInternal (m : Message) (q : List Message) : List Message :=
  match q with
  | [] => [m]
  | a :: rest =>
    if a.deliverAt > m.deliverAt then m :: a :: rest
    else insertLoop m (a :: rest)

/-- `MessageThread::Post` (lines 135-153): build the message with id
`lastMessageID` (post-incremented), `deliverAt = delay==0 ? 0 : now+delay`,
insert it, and return its id.  `lastMessageID` is a `uint32_t` in the
source, so the post-increment wraps modulo `2 ^ 32`.  `now` is the
`GetCurrentTime()` read at line 141; locking/signalling is not part of
the functional model. -/
def Post (func : Option FuncBody) (delay interval : ℚ) (now : ℚ)
    (s : MTState) : Nat × MTState :=
  let m : Message :=
    { id := s.lastMessageID,
      deliverAt := if delay = 0 then 0 else now + delay,
      interval := interval, func := func }
  (m.id,
   { s with lastMessageID := (s.lastMessageID + 1) % 2 ^ 32,
            queue := InsertMessageInternal m s.queue })

/-- `MessageThread::Cancel` (lines 174-190): erase every queued message
whose id matches, keeping the others in order. -/
def Cancel (id : Nat) (s : MTState) : MTState :=
  { s with queue := s.queue.filter (fun m => decide (m.id ≠ id)) }

/-- `MessageThread::CancelSelf` (lines 192-195): set the per-cycle
`cancelCurrent` flag. -/
def CancelSelf (s : MTState) : MTState :=
  { s with cancelCurrent := true }

/-- `MessageThread::Stop` (lines 58-68): set `running = false` and clear
the queue (the wake signal is not part of the functional model). -/
def Stop (s : MTState) : MTState :=
  { s with running := false, queue := [] }

/-- `MessageThread::HardStop` (lines 45-56): set `running = false`, set
the `hardStopped` flag, and clear the queue. -/
def HardStop (s : MTState) : MTState :=
  { s with running := false, hardStopped := true, queue := [] }

/-- Interpretation of a callback body against the scheduler state: the
scheduler-thread re-entrant calls go through the operations above, and
`bumpThenCancelSelfAt n` increments the captured counter and calls
`CancelSelf()` exactly when it reaches `n`. -/
def runFunc : FuncBody → MTState → MTState
  | FuncBody.nop, s => s
  | FuncBody.cancelSelf, s => CancelSelf s
  | FuncBody.cancel i, s => Cancel i s
  | FuncBody.bumpThenCancelSelfAt n, s =>
    let s1 := { s with envCounter := s.envCounter + 1 }
    if s1.envCounter = n then CancelSelf s1 else s1

/-- The drain predicate of `MessageThread::Run` line 104:
`m->deliverAt==0.0 || currentTime>=m->deliverAt`. -/
def isDue (currentTime : ℚ) (m : Message) : Bool :=
  decide (m.deliverAt = 0) || decide (currentTime ≥ m.deliverAt)

/-- Result of executing one drained batch: final state, next clock read
index, and the delivered messages (as they stood at delivery, i.e. after
sentinel stamping, before any interval re-scheduling). -/
structure BatchResult where
  state : MTState
  clockIdx : Nat
  delivered : List Message
deriving DecidableEq

/-- The delivery loop of `MessageThread::Run` lines 118-129: for each
batch message in order, clear `cancelCurrent`, stamp a `0` sentinel with
a fresh `GetCurrentTime()` read (line 121), run the callback if non-null,
and if the callback did not self-cancel and the interval is positive,
advance `deliverAt` by the interval and reinsert the message. -/
def deliverBatch (clock : Nat → ℚ) : List Message → Nat → MTState → BatchResult
  | [], k, s => ⟨s, k, []⟩
  | m :: rest, k, s =>
    let s1 : MTState := { s with cancelCurrent := false }
    let m1 : Message :=
      if m.deliverAt = 0 then { m with deliverAt := clock k } else m
    let k1 : Nat := if m.deliverAt = 0 then k + 1 else k
    let s2 : MTState :=
      match m1.func with
      | none => s1
      | some f => runFunc f s1
    let s3 : MTState :=
      if s2.cancelCurrent = false ∧ 0 < m1.interval then
        { s2 with
          queue := InsertMessageInternal
            { m1 with deliverAt := m1.deliverAt + m1.interval } s2.queue }
      else s2
    let r := deliverBatch clock rest k1 s3
    ⟨r.state, r.clockIdx, m1 :: r.delivered⟩

/-- Result of one pass of the `Run` loop: final state, next clock read
index, delivered messages, and whether the loop continues. -/
structure CycleResult where
  state : MTState
  clockIdx : Nat
  delivered : List Message
  keepRunning : Bool
deriving DecidableEq

/-- One iteration of the `while(running)` loop of `MessageThread::Run`
(lines 97-129), entered after the wait step: break if `running` is false
(line 97); read the current time (line 101); drain every due message into
a batch preserving order (lines 102-110); if `hardStopped` is set, drop
the batch and break (lines 112-116); otherwise execute the batch. -/
def runCycle (clock : Nat → ℚ) (k : Nat) (s : MTState) : CycleResult :=
  if s.running = false then ⟨s, k, [], false⟩
  else
    let currentTime := clock k
    let pr := s.queue.partition (isDue currentTime)
    let s1 : MTState := { s with queue := pr.2 }
    if s.hardStopped = true then ⟨s1, k + 1, [], false⟩
    else
      let r := deliverBatch clock pr.1 (k + 1) s1
      ⟨r.state, r.clockIdx, r.delivered, true⟩

/-- The `while(running)` loop of `MessageThread::Run`, iterated up to
`fuel` cycles (the loop body always terminates; `fuel` bounds how many
wake-ups are observed).  Returns the final state and the concatenated
delivery log. -/
def runLoop (clock : Nat → ℚ) : Nat → Nat → MTState → MTState × List Message
  | 0, _, s => (s, [])
  | fuel + 1, k, s =>
    let r := runCycle clock k s
    if r.keepRunning then
      let r2 := runLoop clock fuel r.clockIdx r.state
      (r2.1, r.delivered ++ r2.2)
    else (r.state, r.delivered)

theorem insertLoop_split (m : Message) :
    ∀ (l : List Message) (a : Message), a.deliverAt ≤ m.deliverAt →
      insertLoop m (a :: l) =
        (a :: l).takeWhile (fun x => decide (x.deliverAt ≤ m.deliverAt)) ++
          m :: (a :: l).dropWhile (fun x => decide (x.deliverAt ≤ m.deliverAt)) := by
  intro l
  induction l with
  | nil =>
    intro a ha
    simp [insertLoop, List.takeWhile, List.dropWhile, ha]
  | cons b rest ih =>
    intro a ha
    by_cases hb : b.deliverAt ≤ m.deliverAt
    · have hcond : ¬ (m.deliverAt < b.deliverAt ∧ a.deliverAt ≤ m.deliverAt) := by
        rintro ⟨h1, -⟩
        exact absurd hb (not_le.mpr h1)
      simp only [insertLoop, if_neg hcond]
      rw [ih b hb]
      simp [List.takeWhile_cons, List.dropWhile_cons, ha]
    · have hcond : m.deliverAt < b.deliverAt ∧ a.deliverAt ≤ m.deliverAt :=
        ⟨not_le.mp hb, ha⟩
      simp [insertLoop, if_pos hcond, List.takeWhile_cons, List.dropWhile_cons, ha, hb]

theorem InsertMessageInternal_eq_split (m : Message) (q : List Message) :
    InsertMessageInternal m q =
      q.takeWhile (fun x => decide (x.deliverAt ≤ m.deliverAt)) ++
        m :: q.dropWhile (fun x => decide (x.deliverAt ≤ m.deliverAt)) := by
  match q with
  | [] => simp [InsertMessageInternal]
  | a :: rest =>
    by_cases h : a.deliverAt > m.deliverAt
    · have ha : ¬ a.deliverAt ≤ m.deliverAt := not_le.mpr h
      simp [InsertMessageInternal, if_pos h, List.takeWhile_cons, List.dropWhile_cons, ha]
    · have ha : a.deliverAt ≤ m.deliverAt := not_lt.mp h
      simp only [InsertMessageInternal, if_neg h]
      exact insertLoop_split m rest a ha

theorem InsertMessageInternal_perm (m : Message) (q : List Message) :
    List.Perm (InsertMessageInternal m q) (m :: q) := by
  rw [InsertMessageInternal_eq_split]
  calc (q.takeWhile (fun x => decide (x.deliverAt ≤ m.deliverAt)) ++
          m :: q.dropWhile (fun x => decide (x.deliverAt ≤ m.deliverAt))).Perm
        (m :: (q.takeWhile (fun x => decide (x.deliverAt ≤ m.deliverAt)) ++
          q.dropWhile (fun x => decide (x.deliverAt ≤ m.deliverAt)))) := List.perm_middle
    _ = m :: q := by rw [List.takeWhile_append_dropWhile]

theorem dropWhile_head_false {p : Message → Bool} :
    ∀ (l : List Message) (c : Message) (t : List Message),
      l.dropWhile p = c :: t → p c = false := by
  intro l
  induction l with
  | nil => intro c t h; simp [List.dropWhile] at h
  | cons x xs ih =>
    intro c t h
    rw [List.dropWhile_cons] at h
    by_cases hx : p x = true
    · rw [if_pos hx] at h; exact ih c t h
    · rw [if_neg hx] at h
      cases h
      exact Bool.not_eq_true _ |>.mp hx

theorem InsertMessageInternal_sorted (m : Message) (q : List Message)
    (h : List.Sorted (fun a b : Message => a.deliverAt ≤ b.deliverAt) q) :
    List.Sorted (fun a b : Message => a.deliverAt ≤ b.deliverAt)
      (InsertMessageInternal m q) := by
  rw [InsertMessageInternal_eq_split]
  set p : Message → Bool := fun x => decide (x.deliverAt ≤ m.deliverAt) with hp
  have hq : q = q.takeWhile p ++ q.dropWhile p :=
    (List.takeWhile_append_dropWhile (p := p) (l := q)).symm
  rw [hq] at h
  rw [List.Sorted, List.pairwise_append] at h ⊢
  obtain ⟨h1, h2, h3⟩ := h
  have hmemtw : ∀ x ∈ q.takeWhile p, x.deliverAt ≤ m.deliverAt := by
    intro x hx
    have := List.mem_takeWhile_imp hx
    simpa [hp] using this
  have hmemdw : ∀ b ∈ q.dropWhile p, m.deliverAt ≤ b.deliverAt := by
    intro b hb
    cases hd : q.dropWhile p with
    | nil => rw [hd] at hb; simp at hb
    | cons c t =>
      have hc : p c = false := dropWhile_head_false q c t hd
      have hcm : m.deliverAt < c.deliverAt := by
        simpa [hp] using hc
      rw [hd] at hb h2
      rcases List.mem_cons.mp hb with rfl | hbt
      · exact le_of_lt hcm
      · have := (List.pairwise_cons.mp h2).1 b hbt
        exact le_trans (le_of_lt hcm) this
  refine ⟨h1, ?_, ?_⟩
  · rw [List.pairwise_cons]
    exact ⟨hmemdw, h2⟩
  · intro a ha b hb
    rcases List.mem_cons.mp hb with rfl | hbd
    · exact hmemtw a ha
    · exact le_trans (hmemtw a ha) (hmemdw b hbd)

theorem deliverBatch_map_id (clock : Nat → ℚ) :
    ∀ (l : List Message) (k : Nat) (s : MTState),
      List.map Message.id (deliverBatch clock l k s).delivered
        = List.map Message.id l := by
  intro l
  induction l with
  | nil => intro k s; rfl
  | cons m rest ih =>
    intro k s
    by_cases h : m.deliverAt = 0 <;> simp [deliverBatch, h, ih]

/-- C2: the queue insertion places a new task after all existing tasks
with equal-or-earlier `deliverAt` and before the first task whose
`deliverAt` strictly exceeds it (the takeWhile/dropWhile split), and on a
queue sorted ascending by `deliverAt` it preserves sortedness, so every
insertion by `Post` or by reinsertion of a repeating task keeps the queue
sorted with stable ties. -/
theorem C2_queue_sorted_insert (m : Message) (q : List Message) :
    InsertMessageInternal m q =
      q.takeWhile (fun x => decide (x.deliverAt ≤ m.deliverAt)) ++
        m :: q.dropWhile (fun x => decide (x.deliverAt ≤ m.deliverAt)) ∧
    (List.Sorted (fun a b : Message => a.deliverAt ≤ b.deliverAt) q →
      List.Sorted (fun a b : Message => a.deliverAt ≤ b.deliverAt)
        (InsertMessageInternal m q)) :=
  ⟨InsertMessageInternal_eq_split m q, InsertMessageInternal_sorted m q⟩

theorem C2_queue_sorted_insert_witness :
    List.Sorted (fun a b : Message => a.deliverAt ≤ b.deliverAt)
        [⟨0, 3, 0, none⟩, ⟨1, 7, 0, none⟩] ∧
      (InsertMessageInternal ⟨2, 5, 0, none⟩ [⟨0, 3, 0, none⟩, ⟨1, 7, 0, none⟩] =
        ([⟨0, 3, 0, none⟩, ⟨1, 7, 0, none⟩] : List Message).takeWhile
            (fun x => decide (x.deliverAt ≤ (⟨2, 5, 0, none⟩ : Message).deliverAt)) ++
          (⟨2, 5, 0, none⟩ : Message) ::
            ([⟨0, 3, 0, none⟩, ⟨1, 7, 0, none⟩] : List Message).dropWhile
              (fun x => decide (x.deliverAt ≤ (⟨2, 5, 0, none⟩ : Message).deliverAt)) ∧
        (List.Sorted (fun a b : Message => a.deliverAt ≤ b.deliverAt)
            [⟨0, 3, 0, none⟩, ⟨1, 7, 0, none⟩] →
          List.Sorted (fun a b : Message => a.deliverAt ≤ b.deliverAt)
            (InsertMessageInternal ⟨2, 5, 0, none⟩ [⟨0, 3, 0, none⟩, ⟨1, 7, 0, none⟩]))) :=
  ⟨by decide, C2_queue_sorted_insert _ _⟩

/-- C3 (counterexample): the id counter is a `uint32_t` that wraps: on a
scheduler whose counter stands at `2 ^ 32 - 1`, the first `Post` returns
id `2 ^ 32 - 1` and the next `Post` returns id `0`, which is not
strictly greater than the id of the previously posted task — refuting
the unconditional strict-freshness claim. -/
theorem C3_post_fresh_id_cex :
    (Post none 1 0 0 ⟨[], 2 ^ 32 - 1, true, false, false, 0⟩).1 = 2 ^ 32 - 1 ∧
    (Post none 1 0 0
        (Post none 1 0 0 ⟨[], 2 ^ 32 - 1, true, false, false, 0⟩).2).1 = 0 ∧
    ¬ ((Post none 1 0 0 ⟨[], 2 ^ 32 - 1, true, false, false, 0⟩).1 <
        (Post none 1 0 0
          (Post none 1 0 0 ⟨[], 2 ^ 32 - 1, true, false, false, 0⟩).2).1) := by
  norm_num [Post]

/-- C3 (amended): `Post(action, delay, interval)` inserts a task whose
`deliverAt` is `0` when `delay = 0` and `now + delay` otherwise, returns
exactly the id it assigns (the current counter value), advances the
32-bit counter by one modulo `2 ^ 32`, and adds exactly that one task to
the queue; provided the counter does not wrap on this call
(`lastMessageID + 1 < 2 ^ 32`, i.e. fewer than `2 ^ 32` ids allocated),
the fresh id is strictly greater than the id of every queued task and
the invariant that the counter strictly dominates every queued id is
preserved. -/
theorem C3_post_fresh_id (func : Option FuncBody) (delay interval now : ℚ)
    (s : MTState) (hinv : ∀ x ∈ s.queue, x.id < s.lastMessageID)
    (hwrap : s.lastMessageID + 1 < 2 ^ 32) :
    (Post func delay interval now s).1 = s.lastMessageID ∧
    (Post func delay interval now s).2.lastMessageID = s.lastMessageID + 1 ∧
    List.Perm (Post func delay interval now s).2.queue
      ({ id := s.lastMessageID,
         deliverAt := if delay = 0 then 0 else now + delay,
         interval := interval, func := func } :: s.queue) ∧
    (∀ x ∈ s.queue, x.id < (Post func delay interval now s).1) ∧
    (∀ x ∈ (Post func delay interval now s).2.queue,
      x.id < (Post func delay interval now s).2.lastMessageID) := by
  refine ⟨rfl, Nat.mod_eq_of_lt hwrap, InsertMessageInternal_perm _ _, hinv, ?_⟩
  intro x hx
  have hx' : x ∈ Message.mk s.lastMessageID
      (if delay = 0 then 0 else now + delay) interval func :: s.queue :=
    (InsertMessageInternal_perm _ _).subset hx
  show x.id < (s.lastMessageID + 1) % 2 ^ 32
  rw [Nat.mod_eq_of_lt hwrap]
  rcases List.mem_cons.mp hx' with rfl | hxs
  · exact Nat.lt_succ_self _
  · exact Nat.lt_succ_of_lt (hinv x hxs)

theorem C3_post_fresh_id_witness :
    (∀ x ∈ initState.queue, x.id < initState.lastMessageID) ∧
    initState.lastMessageID + 1 < 2 ^ 32 ∧
    ((Post none 10 0 0 initState).1 = initState.lastMessageID ∧
     (Post none 10 0 0 initState).2.lastMessageID = initState.lastMessageID + 1 ∧
     List.Perm (Post none 10 0 0 initState).2.queue
       ({ id := initState.lastMessageID,
          deliverAt := if (10:ℚ) = 0 then 0 else 0 + 10,
          interval := 0, func := none } :: initState.queue) ∧
     (∀ x ∈ initState.queue, x.id < (Post none 10 0 0 initState).1) ∧
     (∀ x ∈ (Post none 10 0 0 initState).2.queue,
       x.id < (Post none 10 0 0 initState).2.lastMessageID)) :=
  ⟨by simp [initState], by norm_num [initState],
   C3_post_fresh_id none 10 0 0 initState (by simp [initState])
     (by norm_num [initState])⟩

/-- C4: `Cancel(id)` removes every queued task with that id, is a no-op
(the state is unchanged, no error) when no queued task has the id, and
leaves the other queued tasks, their relative order, and the rest of the
scheduler state unchanged. -/
theorem C4_cancel_removes (i : Nat) (s : MTState) :
    (∀ x ∈ (Cancel i s).queue, x.id ≠ i) ∧
    (Cancel i s).queue.Sublist s.queue ∧
    (∀ x ∈ s.queue, x.id ≠ i → x ∈ (Cancel i s).queue) ∧
    ((∀ x ∈ s.queue, x.id ≠ i) → Cancel i s = s) ∧
    (Cancel i s).lastMessageID = s.lastMessageID ∧
    (Cancel i s).running = s.running ∧
    (Cancel i s).hardStopped = s.hardStopped := by
  refine ⟨?_, List.filter_sublist _, ?_, ?_, rfl, rfl, rfl⟩
  · intro x hx
    have := List.of_mem_filter hx
    simpa using this
  · intro x hx hxi
    exact List.mem_filter.mpr ⟨hx, by simpa using hxi⟩
  · intro h
    have hq : s.queue.filter (fun m => decide (m.id ≠ i)) = s.queue :=
      List.filter_eq_self.mpr (fun a ha => by simpa using h a ha)
    show ({ s with queue := s.queue.filter (fun m => decide (m.id ≠ i)) } : MTState) = s
    rw [hq]

theorem C4_cancel_removes_witness :
    (∀ x ∈ (Cancel 7 ⟨[⟨7, 1, 0, none⟩, ⟨3, 2, 0, none⟩], 8, true, false, false, 0⟩).queue,
        x.id ≠ 7) ∧
    (Cancel 7 ⟨[⟨7, 1, 0, none⟩, ⟨3, 2, 0, none⟩], 8, true, false, false, 0⟩).queue.Sublist
        [⟨7, 1, 0, none⟩, ⟨3, 2, 0, none⟩] ∧
    (∀ x ∈ ([⟨7, 1, 0, none⟩, ⟨3, 2, 0, none⟩] : List Message), x.id ≠ 7 →
      x ∈ (Cancel 7 ⟨[⟨7, 1, 0, none⟩, ⟨3, 2, 0, none⟩], 8, true, false, false, 0⟩).queue) ∧
    ((∀ x ∈ ([⟨7, 1, 0, none⟩, ⟨3, 2, 0, none⟩] : List Message), x.id ≠ 7) →
      Cancel 7 ⟨[⟨7, 1, 0, none⟩, ⟨3, 2, 0, none⟩], 8, true, false, false, 0⟩ =
        ⟨[⟨7, 1, 0, none⟩, ⟨3, 2, 0, none⟩], 8, true, false, false, 0⟩) ∧
    (Cancel 7 ⟨[⟨7, 1, 0, none⟩, ⟨3, 2, 0, none⟩], 8, true, false, false, 0⟩).lastMessageID = 8 ∧
    (Cancel 7 ⟨[⟨7, 1, 0, none⟩, ⟨3, 2, 0, none⟩], 8, true, false, false, 0⟩).running = true ∧
    (Cancel 7 ⟨[⟨7, 1, 0, none⟩, ⟨3, 2, 0, none⟩], 8, true, false, false, 0⟩).hardStopped = false :=
  C4_cancel_removes 7 ⟨[⟨7, 1, 0, none⟩, ⟨3, 2, 0, none⟩], 8, true, false, false, 0⟩

/-- C9: applying `Stop` to a state already stopped by `Stop` changes
nothing, and likewise for `HardStop`: both shutdown operations are
idempotent on the whole scheduler state (running flag, hard-stop flag,
queue contents, id counter). -/
theorem C9_stop_idempotent (s : MTState) :
    Stop (Stop s) = Stop s ∧ HardStop (HardStop s) = HardStop s :=
  ⟨rfl, rfl⟩

/-- C8: after `Stop` (and likewise `HardStop`) the running flag is false
and the queue is empty, and a delivery cycle entered in that state
observes `running = false` and terminates at once: it delivers nothing,
reports the loop as finished, and any further iteration of the loop
delivers nothing either. -/
theorem C8_stop_clears (s : MTState) (clock : Nat → ℚ) (k fuel : Nat) :
    (Stop s).running = false ∧ (Stop s).queue = [] ∧
    (HardStop s).running = false ∧ (HardStop s).queue = [] ∧
    runCycle clock k (Stop s) = ⟨Stop s, k, [], false⟩ ∧
    runCycle clock k (HardStop s) = ⟨HardStop s, k, [], false⟩ ∧
    (runLoop clock fuel k (Stop s)).2 = [] ∧
    (runLoop clock fuel k (HardStop s)).2 = [] := by
  have h1 : runCycle clock k (Stop s) = ⟨Stop s, k, [], false⟩ := by
    simp [runCycle, Stop]
  have h2 : runCycle clock k (HardStop s) = ⟨HardStop s, k, [], false⟩ := by
    simp [runCycle, HardStop]
  refine ⟨rfl, rfl, rfl, rfl, h1, h2, ?_, ?_⟩
  · cases fuel with
    | zero => rfl
    | succ n => simp [runLoop, h1]
  · cases fuel with
    | zero => rfl
    | succ n => simp [runLoop, h2]

/-- C7: once the hard-stop flag is set, a delivery cycle executes no
callback: even though the cycle may already have drained its batch from
the queue, the batch is discarded, nothing is delivered, the loop
terminates, and any number of further loop iterations deliver nothing. -/
theorem C7_hard_stop_blocks (clock : Nat → ℚ) (k : Nat) (s : MTState)
    (h : s.hardStopped = true) :
    (runCycle clock k s).delivered = [] ∧
    (runCycle clock k s).keepRunning = false ∧
    ∀ fuel, (runLoop clock fuel k s).2 = [] := by
  have hc : (runCycle clock k s).delivered = [] ∧
      (runCycle clock k s).keepRunning = false := by
    by_cases hr : s.running = false
    · simp [runCycle, hr]
    · simp [runCycle, hr, h]
  refine ⟨hc.1, hc.2, ?_⟩
  intro fuel
  cases fuel with
  | zero => rfl
  | succ n => simp [runLoop, hc.1, hc.2]

theorem C7_hard_stop_blocks_witness :
    (HardStop initState).hardStopped = true ∧
    ((runCycle (fun _ => (0:ℚ)) 0 (HardStop initState)).delivered = [] ∧
     (runCycle (fun _ => (0:ℚ)) 0 (HardStop initState)).keepRunning = false ∧
     ∀ fuel, (runLoop (fun _ => (0:ℚ)) fuel 0 (HardStop initState)).2 = []) :=
  ⟨rfl, C7_hard_stop_blocks (fun _ => (0:ℚ)) 0 (HardStop initState) rfl⟩

/-- C1 (counterexample): two posts — a task with delay 10 at time 0
(so `deliverAt = 10`) and an immediate task (`delay = 0`, sentinel
`deliverAt = 0`) at time 5 — followed by one delivery cycle at time 20.
The sentinel task sits at the front of the queue, is delivered first and
is stamped with the current time 20, while the second delivered task
carries `deliverAt = 10`: the carried-at-delivery values are [20, 10],
which is decreasing, refuting the claimed non-decreasing order. -/
theorem C1_delivery_order_cex :
    List.map Message.deliverAt
        (runCycle (fun _ => (20:ℚ)) 0
          (Post none 0 0 5 (Post none 10 0 0 initState).2).2).delivered
      = [20, 10] ∧
    ¬ List.Sorted (fun a b : Message => a.deliverAt ≤ b.deliverAt)
        (runCycle (fun _ => (20:ℚ)) 0
          (Post none 0 0 5 (Post none 10 0 0 initState).2).2).delivered := by
  have h : (runCycle (fun _ => (20:ℚ)) 0
      (Post none 0 0 5 (Post none 10 0 0 initState).2).2).delivered
      = [⟨1, 20, 0, none⟩, ⟨0, 10, 0, none⟩] := by
    norm_num [Post, initState, InsertMessageInternal, runCycle, isDue,
      deliverBatch, List.partition]
  rw [h]
  refine ⟨rfl, fun hS => ?_⟩
  have h20 : ((20:ℚ) ≤ 10) :=
    (List.pairwise_cons.mp hS).1 ⟨0, 10, 0, none⟩ (by simp)
  norm_num at h20

/-- C1 (amended): within a single delivery cycle, tasks are delivered in
their queue order: the delivered ids are exactly the ids of the due
prefix-preserving drain of the queue in order; since the queue is kept
sorted ascending by `deliverAt` with ties in insertion order, the drained
batch is non-decreasing in the `deliverAt` values the tasks carried while
queued (the immediate sentinel counting as `0`), and the drain preserves
relative order.  (The original claim fails for the stamped values: see
the counterexample.) -/
theorem C1_delivery_order (clock : Nat → ℚ) (k : Nat) (s : MTState)
    (hrun : s.running = true) (hhs : s.hardStopped = false)
    (hsort : List.Sorted (fun a b : Message => a.deliverAt ≤ b.deliverAt) s.queue) :
    List.map Message.id (runCycle clock k s).delivered
        = List.map Message.id (s.queue.filter (isDue (clock k))) ∧
    List.Sorted (fun a b : Message => a.deliverAt ≤ b.deliverAt)
        (s.queue.filter (isDue (clock k))) ∧
    (s.queue.filter (isDue (clock k))).Sublist s.queue := by
  refine ⟨?_, List.Pairwise.filter _ hsort, List.filter_sublist _⟩
  simp only [runCycle, hrun]
  norm_num [List.partition_eq_filter_filter, deliverBatch_map_id, hhs]

theorem C1_delivery_order_witness :
    ((⟨[⟨0, 1, 0, none⟩, ⟨1, 2, 0, none⟩], 2, true, false, false, 0⟩ : MTState).running = true) ∧
    ((⟨[⟨0, 1, 0, none⟩, ⟨1, 2, 0, none⟩], 2, true, false, false, 0⟩ : MTState).hardStopped = false) ∧
    List.Sorted (fun a b : Message => a.deliverAt ≤ b.deliverAt)
      (⟨[⟨0, 1, 0, none⟩, ⟨1, 2, 0, none⟩], 2, true, false, false, 0⟩ : MTState).queue ∧
    (List.map Message.id
        (runCycle (fun _ => (1:ℚ)) 0
          ⟨[⟨0, 1, 0, none⟩, ⟨1, 2, 0, none⟩], 2, true, false, false, 0⟩).delivered
        = List.map Message.id
            ((⟨[⟨0, 1, 0, none⟩, ⟨1, 2, 0, none⟩], 2, true, false, false, 0⟩ : MTState).queue.filter
              (isDue ((fun _ => (1:ℚ)) 0))) ∧
     List.Sorted (fun a b : Message => a.deliverAt ≤ b.deliverAt)
        ((⟨[⟨0, 1, 0, none⟩, ⟨1, 2, 0, none⟩], 2, true, false, false, 0⟩ : MTState).queue.filter
          (isDue ((fun _ => (1:ℚ)) 0))) ∧
     ((⟨[⟨0, 1, 0, none⟩, ⟨1, 2, 0, none⟩], 2, true, false, false, 0⟩ : MTState).queue.filter
        (isDue ((fun _ => (1:ℚ)) 0))).Sublist
       (⟨[⟨0, 1, 0, none⟩, ⟨1, 2, 0, none⟩], 2, true, false, false, 0⟩ : MTState).queue) :=
  ⟨rfl, rfl, by decide,
   C1_delivery_order (fun _ => (1:ℚ)) 0
     ⟨[⟨0, 1, 0, none⟩, ⟨1, 2, 0, none⟩], 2, true, false, false, 0⟩ rfl rfl (by decide)⟩

/-- A deterministic clock reading `i` at read index `i`, used by the
concrete scenarios. -/
def demoClock : Nat → ℚ := fun i => (i : ℚ)

/-- The spec scenario behind C5: a fresh started scheduler on which a
repeating task (`delay = 1`, `interval = 1`) is posted at time `0`, whose
callback calls `CancelSelf()` on its 3rd invocation. -/
def selfCancelDemo : MTState :=
  (Post (some (FuncBody.bumpThenCancelSelfAt 3)) 1 1 0 initState).2

theorem selfCancelDemo_eq :
    selfCancelDemo =
      ⟨[⟨0, 1, 1, some (FuncBody.bumpThenCancelSelfAt 3)⟩], 1, true, false, false, 0⟩ := by
  norm_num [selfCancelDemo, Post, initState, InsertMessageInternal]

theorem selfCancelDemo_cycle1 :
    runCycle demoClock 0
        ⟨[⟨0, 1, 1, some (FuncBody.bumpThenCancelSelfAt 3)⟩], 1, true, false, false, 0⟩ =
      ⟨⟨[⟨0, 1, 1, some (FuncBody.bumpThenCancelSelfAt 3)⟩], 1, true, false, false, 0⟩,
        1, [], true⟩ := by
  norm_num [runCycle, demoClock, isDue, List.partition_eq_filter_filter, deliverBatch]

theorem selfCancelDemo_cycle2 :
    runCycle demoClock 1
        ⟨[⟨0, 1, 1, some (FuncBody.bumpThenCancelSelfAt 3)⟩], 1, true, false, false, 0⟩ =
      ⟨⟨[⟨0, 2, 1, some (FuncBody.bumpThenCancelSelfAt 3)⟩], 1, true, false, false, 1⟩,
        2, [⟨0, 1, 1, some (FuncBody.bumpThenCancelSelfAt 3)⟩], true⟩ := by
  norm_num [runCycle, demoClock, isDue, List.partition_eq_filter_filter, deliverBatch, runFunc,
    CancelSelf, InsertMessageInternal]

theorem selfCancelDemo_cycle3 :
    runCycle demoClock 2
        ⟨[⟨0, 2, 1, some (FuncBody.bumpThenCancelSelfAt 3)⟩], 1, true, false, false, 1⟩ =
      ⟨⟨[⟨0, 3, 1, some (FuncBody.bumpThenCancelSelfAt 3)⟩], 1, true, false, false, 2⟩,
        3, [⟨0, 2, 1, some (FuncBody.bumpThenCancelSelfAt 3)⟩], true⟩ := by
  norm_num [runCycle, demoClock, isDue, List.partition_eq_filter_filter, deliverBatch, runFunc,
    CancelSelf, InsertMessageInternal]

theorem selfCancelDemo_cycle4 :
    runCycle demoClock 3
        ⟨[⟨0, 3, 1, some (FuncBody.bumpThenCancelSelfAt 3)⟩], 1, true, false, false, 2⟩ =
      ⟨⟨[], 1, true, false, true, 3⟩,
        4, [⟨0, 3, 1, some (FuncBody.bumpThenCancelSelfAt 3)⟩], true⟩ := by
  norm_num [runCycle, demoClock, isDue, List.partition_eq_filter_filter, deliverBatch, runFunc,
    CancelSelf, InsertMessageInternal]

theorem runLoop_queue_nil (clock : Nat → ℚ) :
    ∀ (fuel k : Nat) (s : MTState), s.queue = [] → (runLoop clock fuel k s).2 = [] := by
  intro fuel
  induction fuel with
  | zero => intro k s h; rfl
  | succ n ih =>
    intro k s h
    by_cases hr : s.running = false
    · simp [runLoop, runCycle, hr]
    · by_cases hh : s.hardStopped = true
      · simp [runLoop, runCycle, hr, hh]
      · have hcyc : runCycle clock k s = ⟨{ s with queue := [] }, k + 1, [], true⟩ := by
          simp [runCycle, hr, hh, h, List.partition_eq_filter_filter, deliverBatch]
        simp [runLoop, hcyc, ih]

theorem deliverBatch_single_reinsert (clock : Nat → ℚ) (k : Nat) (s : MTState)
    (m : Message) (hfunc : m.func = none) (hd : m.deliverAt ≠ 0) (hI : 0 < m.interval) :
    (deliverBatch clock [m] k s).state.queue =
      InsertMessageInternal { m with deliverAt := m.deliverAt + m.interval } s.queue ∧
    (deliverBatch clock [m] k s).delivered = [m] := by
  simp [deliverBatch, hd, hfunc, hI]

/-- C5: the self-cancel flag is cleared before each callback (a stale
flag never suppresses reinsertion of a repeating task whose callback does
not cancel), a callback that calls `CancelSelf()` suppresses reinsertion
of the just-executed task even though its interval is nonzero, and in the
concrete scenario — a repeating task whose callback calls `CancelSelf()`
on its 3rd invocation — the task executes exactly 3 times and never
again, however long the loop keeps running. -/
theorem C5_cancel_self_spec :
    (∀ (clock : Nat → ℚ) (k : Nat) (s : MTState) (m : Message),
      m.func = none → m.deliverAt ≠ 0 → 0 < m.interval →
      ((deliverBatch clock [m] k s).state.queue =
          InsertMessageInternal { m with deliverAt := m.deliverAt + m.interval } s.queue ∧
        (deliverBatch clock [m] k s).delivered = [m])) ∧
    (∀ (clock : Nat → ℚ) (k : Nat) (s : MTState) (m : Message),
      m.func = some FuncBody.cancelSelf → m.deliverAt ≠ 0 →
      ((deliverBatch clock [m] k s).state.queue = s.queue ∧
        (deliverBatch clock [m] k s).delivered = [m])) ∧
    (∀ n : Nat,
      List.map Message.id (runLoop demoClock (n + 4) 0 selfCancelDemo).2 = [0, 0, 0]) := by
  refine ⟨?_, ?_, ?_⟩
  · intro clock k s m hfunc hd hI
    exact deliverBatch_single_reinsert clock k s m hfunc hd hI
  · intro clock k s m hfunc hd
    constructor <;> simp [deliverBatch, hd, hfunc, runFunc, CancelSelf]
  · intro n
    have h4 : n + 4 = (((n + 1) + 1) + 1) + 1 := by omega
    rw [selfCancelDemo_eq, h4]
    simp only [runLoop, selfCancelDemo_cycle1, selfCancelDemo_cycle2,
      selfCancelDemo_cycle3, selfCancelDemo_cycle4]
    simp [runLoop_queue_nil demoClock n 4 ⟨[], 1, true, false, true, 3⟩ rfl]

theorem C5_cancel_self_spec_witness :
    List.map Message.id (runLoop demoClock (0 + 4) 0 selfCancelDemo).2 = [0, 0, 0] ∧
    (deliverBatch demoClock [⟨9, 5, 1, none⟩] 0 initState).state.queue =
      InsertMessageInternal (Message.mk 9 ((5:ℚ) + 1) 1 none) initState.queue ∧
    (deliverBatch demoClock [⟨9, 5, 1, none⟩] 0 initState).delivered = [⟨9, 5, 1, none⟩] ∧
    (deliverBatch demoClock [⟨8, 5, 1, some FuncBody.cancelSelf⟩] 0 initState).state.queue =
      initState.queue :=
  ⟨C5_cancel_self_spec.2.2 0,
   (C5_cancel_self_spec.1 demoClock 0 initState ⟨9, 5, 1, none⟩ rfl (by norm_num) (by norm_num)).1,
   (C5_cancel_self_spec.1 demoClock 0 initState ⟨9, 5, 1, none⟩ rfl (by norm_num) (by norm_num)).2,
   (C5_cancel_self_spec.2.1 demoClock 0 initState ⟨8, 5, 1, some FuncBody.cancelSelf⟩ rfl
     (by norm_num)).1⟩

/-- The repeating task with id `0`, base delivery time `d` and interval
`I`, as it stands after `c` completed executions: its `deliverAt` is
`d + c * I`. -/
def repMsg (d I : ℚ) (c : Nat) : Message := ⟨0, d + c * I, I, none⟩

theorem repeat_chain_aux (d I : ℚ) (hd : 0 < d) (hI : 0 < I) (clock : Nat → ℚ) :
    ∀ (fuel k : Nat) (s : MTState) (c : Nat),
      s.queue = [repMsg d I c] → s.running = true → s.hardStopped = false →
      List.Chain' (fun a b => b = a + I)
          (List.map Message.deliverAt (runLoop clock fuel k s).2) ∧
      ((runLoop clock fuel k s).2 = [] ∨
        (List.map Message.deliverAt (runLoop clock fuel k s).2).head?
          = some (d + c * I)) := by
  intro fuel
  induction fuel with
  | zero => intro k s c hq hr hh; exact ⟨List.chain'_nil, Or.inl rfl⟩
  | succ n ih =>
    intro k s c hq hr hh
    have hpos : (0:ℚ) < d + c * I := by positivity
    by_cases hdue : clock k ≥ d + c * I
    · have hmsg : (Message.mk 0 (d + (c:ℚ) * I + I) I none) = repMsg d I (c + 1) := by
        simp only [repMsg]
        congr 1
        push_cast
        ring
      have hcyc : runCycle clock k s =
          ⟨{ s with queue := [repMsg d I (c + 1)], cancelCurrent := false },
            k + 1, [repMsg d I c], true⟩ := by
        simp only [runCycle, hr, hq]
        norm_num [isDue, List.partition_eq_filter_filter, hpos.ne', hdue, hh,
          deliverBatch, InsertMessageInternal, repMsg, hI, hmsg]
      have hrec := ih (k + 1)
        { s with queue := [repMsg d I (c + 1)], cancelCurrent := false } (c + 1)
        rfl (by simp [hr]) (by simp [hh])
      have hunf : (runLoop clock (n + 1) k s).2
          = repMsg d I c :: (runLoop clock n (k + 1)
              { s with queue := [repMsg d I (c + 1)], cancelCurrent := false }).2 := by
        simp [runLoop, hcyc]
      refine ⟨?_, Or.inr ?_⟩
      · rw [hunf]
        simp only [List.map_cons]
        rw [List.chain'_cons']
        refine ⟨?_, hrec.1⟩
        intro y hy
        rcases hrec.2 with hnil | hhead
        · rw [hnil] at hy
          simp at hy
        · rw [hhead] at hy
          simp only [Option.mem_def, Option.some.injEq] at hy
          subst hy
          simp only [repMsg]
          push_cast
          ring
      · rw [hunf]
        simp [repMsg]
    · have hcyc : runCycle clock k s =
          ⟨{ s with queue := [repMsg d I c] }, k + 1, [], true⟩ := by
        simp only [runCycle, hr, hq]
        norm_num [isDue, List.partition_eq_filter_filter, hpos.ne', hdue, hh,
          deliverBatch, repMsg]
      have hrec := ih (k + 1) { s with queue := [repMsg d I c] } c
        rfl (by simp [hr]) (by simp [hh])
      have hunf : (runLoop clock (n + 1) k s).2
          = (runLoop clock n (k + 1) { s with queue := [repMsg d I c] }).2 := by
        simp [runLoop, hcyc]
      rw [hunf]
      exact hrec

/-- C6: a repeating task that is never self-cancelled is rescheduled at
the previous intended delivery time plus its interval — independent of
the clock, i.e. of when the callback actually ran — and over any run of
the loop, under any clock whatsoever, the successive `deliverAt` values
of its deliveries differ by exactly `I`. -/
theorem C6_drift_free (d I : ℚ) (clock : Nat → ℚ) (fuel : Nat)
    (hd : 0 < d) (hI : 0 < I) :
    (∀ (k : Nat) (s : MTState) (m : Message),
      m.func = none → m.deliverAt ≠ 0 → 0 < m.interval →
      (deliverBatch clock [m] k s).state.queue =
        InsertMessageInternal { m with deliverAt := m.deliverAt + m.interval }
          s.queue) ∧
    List.Chain' (fun a b => b = a + I)
      (List.map Message.deliverAt
        (runLoop clock fuel 0 ⟨[repMsg d I 0], 1, true, false, false, 0⟩).2) :=
  ⟨fun k s m hf hdel hint => (deliverBatch_single_reinsert clock k s m hf hdel hint).1,
   (repeat_chain_aux d I hd hI clock fuel 0 _ 0 rfl rfl rfl).1⟩

theorem C6_drift_free_witness :
    (0:ℚ) < 1 ∧
    ((∀ (k : Nat) (s : MTState) (m : Message),
        m.func = none → m.deliverAt ≠ 0 → 0 < m.interval →
        (deliverBatch demoClock [m] k s).state.queue =
          InsertMessageInternal { m with deliverAt := m.deliverAt + m.interval }
            s.queue) ∧
      List.Chain' (fun a b => b = a + (1:ℚ))
        (List.map Message.deliverAt
          (runLoop demoClock 3 0 ⟨[repMsg 1 1 0], 1, true, false, false, 0⟩).2)) :=
  ⟨by norm_num, C6_drift_free 1 1 demoClock 3 (by norm_num) (by norm_num)⟩

/-- C10: a repeating task whose callback calls `Cancel` with the task's
own id removes nothing (the task is no longer queued while it executes,
and the state after the cancel equals the state before it) and the task
is reinserted afterwards anyway, because only the `cancelCurrent` flag
set by `CancelSelf` suppresses reinsertion. -/
theorem C10_cancel_own_id (clock : Nat → ℚ) (k : Nat) (s : MTState) (m : Message)
    (hf : m.func = some (FuncBody.cancel m.id)) (hd : m.deliverAt ≠ 0)
    (hI : 0 < m.interval) (hnot : ∀ x ∈ s.queue, x.id ≠ m.id) :
    Cancel m.id { s with cancelCurrent := false } = { s with cancelCurrent := false } ∧
    (deliverBatch clock [m] k s).state.queue =
      InsertMessageInternal { m with deliverAt := m.deliverAt + m.interval } s.queue ∧
    (deliverBatch clock [m] k s).delivered = [m] := by
  have hfil : s.queue.filter (fun x => decide (x.id ≠ m.id)) = s.queue :=
    List.filter_eq_self.mpr (fun a ha => by simpa using hnot a ha)
  have hcan : Cancel m.id { s with cancelCurrent := false }
      = { s with cancelCurrent := false } := by
    show ({ s with cancelCurrent := false, queue := s.queue.filter (fun x => decide (x.id ≠ m.id)) } : MTState) = { s with cancelCurrent := false }
    rw [hfil]
  refine ⟨hcan, ?_, ?_⟩ <;>
    simp [deliverBatch, hd, hf, runFunc, hcan, hI]

theorem C10_cancel_own_id_witness :
    (Message.mk 5 2 1 (some (FuncBody.cancel 5))).func
        = some (FuncBody.cancel (Message.mk 5 2 1 (some (FuncBody.cancel 5))).id) ∧
    (Message.mk 5 2 1 (some (FuncBody.cancel 5))).deliverAt ≠ 0 ∧
    (0:ℚ) < (Message.mk 5 2 1 (some (FuncBody.cancel 5))).interval ∧
    (∀ x ∈ initState.queue, x.id ≠ (Message.mk 5 2 1 (some (FuncBody.cancel 5))).id) ∧
    (Cancel 5 { initState with cancelCurrent := false }
        = { initState with cancelCurrent := false } ∧
      (deliverBatch demoClock [Message.mk 5 2 1 (some (FuncBody.cancel 5))] 0
          initState).state.queue =
        InsertMessageInternal (Message.mk 5 ((2:ℚ) + 1) 1 (some (FuncBody.cancel 5)))
          initState.queue ∧
      (deliverBatch demoClock [Message.mk 5 2 1 (some (FuncBody.cancel 5))] 0
          initState).delivered = [Message.mk 5 2 1 (some (FuncBody.cancel 5))]) :=
  ⟨rfl, by norm_num, by norm_num, by simp [initState],
   C10_cancel_own_id demoClock 0 initState (Message.mk 5 2 1 (some (FuncBody.cancel 5)))
     rfl (by norm_num) (by norm_num) (by simp [initState])⟩

end MessageThread
